import Mathlib

/-!
Shallow embedding of `curriculum_parser.py` from the sis-scraper repository.

Conventions of the embedding:
* Python strings are Lean `String`s, but all computation is done on `List Char`
  (`String.toList` / `String.mk`) so that every definition kernel-evaluates.
* A PDF table cell (`str | None`) is `Option String`; Python truthiness of a
  cell is `truthyCell` (non-`None` and non-empty).
* Python floats are modelled as `ℚ`, built with `mkRat` (never `/`), since all
  unit values in this program are exact small decimals; `float(...)` parsing is
  `pyFloat?` (scientific notation is supported; the exotic `inf`/`nan`/
  underscore literal forms accepted by Python are not modelled, and `\s` is
  modelled by `Char.isWhitespace`).
* Fallible parses return `Option`; an exception that the Python code catches
  and converts to a default is modelled by `Option.getD`.
-/

/-- Python truthiness of a table cell (`str | None`): not `None`, not `""`. -/
def truthyCell : Option String → Bool
  | none => false
  | some s => s ≠ ""

/-- The text of a cell, `str(x)`; only ever used on truthy cells. -/
def cellStr : Option String → String
  | none => ""
  | some s => s

/-- ASCII lower-casing of one character, `str.lower` restricted to ASCII. -/
def lowerChar (c : Char) : Char :=
  if 'A' ≤ c ∧ c ≤ 'Z' then Char.ofNat (c.toNat + 32) else c

/-- ASCII upper-casing of one character, `str.upper` restricted to ASCII. -/
def upperChar (c : Char) : Char :=
  if 'a' ≤ c ∧ c ≤ 'z' then Char.ofNat (c.toNat - 32) else c

/-- Boolean membership of a character in a character list. -/
def charMem (c : Char) (cs : List Char) : Bool :=
  cs.any (fun x => x = c)

/-- Boolean test: `p` occurs at the start of `cs`. -/
def prefixAt (p cs : List Char) : Bool :=
  match p, cs with
  | [], _ => true
  | _ :: _, [] => false
  | a :: p', b :: cs' => a = b && prefixAt p' cs'

/-- Boolean test: `p` occurs somewhere inside `cs` (Python `p in cs`). -/
def infixAt (p cs : List Char) : Bool :=
  match cs with
  | [] => prefixAt p []
  | _ :: rest => prefixAt p cs || infixAt p rest

/-- Substring containment on strings, Python `pat in s`. -/
def containsSub (pat s : String) : Bool :=
  infixAt pat.toList s.toList

/-- Python `str.strip()` on the left: drop leading whitespace. -/
def trimLeftList (cs : List Char) : List Char :=
  cs.dropWhile Char.isWhitespace

/-- Python `str.strip()`: drop leading and trailing whitespace. -/
def trimList (cs : List Char) : List Char :=
  ((trimLeftList cs.reverse).reverse : List Char) |> trimLeftList

/-- Accumulator version of Python `str.split()` (split on whitespace runs,
dropping empty pieces); `acc` holds the current word reversed. -/
def wordsAux : List Char → List Char → List (List Char)
  | [], acc => if acc = [] then [] else [acc.reverse]
  | c :: rest, acc =>
      if c.isWhitespace then
        if acc = [] then wordsAux rest [] else acc.reverse :: wordsAux rest []
      else wordsAux rest (c :: acc)

/-- Python `text.split()`. -/
def pyWords (s : String) : List (List Char) :=
  wordsAux s.toList []

/-- Join with a single space, Python `" ".join(parts)`. -/
def joinSpace : List (List Char) → List Char
  | [] => []
  | [w] => w
  | w :: rest => w ++ ' ' :: joinSpace rest

/-- Source `clean_text`: `" ".join(str(text).split())`, with `None ↦ ""`. -/
def clean_text (s : String) : String :=
  String.mk (joinSpace (pyWords s))

/-- Source `clean_text` applied to a raw cell (handles the `None` cell). -/
def cleanCell (c : Option String) : String :=
  match c with
  | none => ""
  | some s => clean_text s

/-- Python `text.split(sep)` for a one-character separator (keeps empty
pieces); `acc` holds the current piece reversed. -/
def splitOnCharAux (sep : Char) : List Char → List Char → List (List Char)
  | [], acc => [acc.reverse]
  | c :: rest, acc =>
      if c = sep then acc.reverse :: splitOnCharAux sep rest []
      else splitOnCharAux sep rest (c :: acc)

/-- Python `text.split(sep)` for a one-character separator. -/
def splitOnChar (sep : Char) (cs : List Char) : List (List Char) :=
  splitOnCharAux sep cs []

/-- Numeric value of a digit list read in base 10. -/
def digitsVal (cs : List Char) : Nat :=
  cs.foldl (fun n c => 10 * n + (c.toNat - 48)) 0

/-- Mantissa part of a Python float literal: optional sign, digits, optional
dot with digits, at least one digit in total.  Returns
(negative, all digits as one numeral, number of fractional digits). -/
def parseMantissa (cs : List Char) : Option (Bool × Nat × Nat) :=
  let (neg, cs1) :=
    match cs with
    | '+' :: t => (false, t)
    | '-' :: t => (true, t)
    | _ => (false, cs)
  let ip := cs1.takeWhile Char.isDigit
  match cs1.drop ip.length with
  | [] => if ip = [] then none else some (neg, digitsVal ip, 0)
  | '.' :: r2 =>
      let fp := r2.takeWhile Char.isDigit
      if r2.drop fp.length ≠ [] then none
      else if ip = [] ∧ fp = [] then none
      else some (neg, digitsVal (ip ++ fp), fp.length)
  | _ => none

/-- Exponent part of a Python float literal: optional sign, then digits. -/
def parseExpPart (cs : List Char) : Option Int :=
  let (neg, cs1) :=
    match cs with
    | '+' :: t => (false, t)
    | '-' :: t => (true, t)
    | _ => (false, cs)
  if cs1 ≠ [] ∧ cs1.all Char.isDigit then
    some (if neg then -(digitsVal cs1 : Int) else (digitsVal cs1 : Int))
  else none

/-- Assemble a rational from sign, numeral, fractional length and exponent. -/
def ratOfParts (neg : Bool) (v : Nat) (k : Nat) (e : Int) : ℚ :=
  let n : Int := if neg then -(v : Int) else (v : Int)
  let p : Int := e - (k : Int)
  if 0 ≤ p then mkRat (n * (10 : Int) ^ p.toNat) 1
  else mkRat n ((10 : Nat) ^ (-p).toNat)

/-- Python `float(s)`: `none` models a raised `ValueError`. -/
def pyFloat? (s : String) : Option ℚ :=
  let cs := (trimList s.toList).map (fun c => if c = 'E' then 'e' else c)
  match splitOnChar 'e' cs with
  | [m] => (parseMantissa m).map (fun t => ratOfParts t.1 t.2.1 t.2.2 0)
  | [m, ex] =>
      match parseMantissa m, parseExpPart ex with
      | some t, some e => some (ratOfParts t.1 t.2.1 t.2.2 e)
      | _, _ => none
  | _ => none

/-- Source `parse_units`: engineering "Lec-Lab-Credit" strings take the last
hyphen-delimited segment; otherwise all characters except digits and the
decimal point are stripped and the rest parsed; every failure yields `0.0`. -/
def parse_units (unit_str : String) : ℚ :=
  if unit_str = "" then 0
  else
    let text := trimList unit_str.toList
    let clean := text.filter (fun c => c.isDigit || c = '.')
    let viaClean : ℚ := if clean = [] then 0 else (pyFloat? (String.mk clean)).getD 0
    if charMem '-' text then
      match pyFloat? (String.mk ((splitOnChar '-' text).getLastD [])) with
      | some q => q
      | none => viaClean
    else viaClean

/-- Source `IGNORE_CODES`: words that match the course code pattern but are
not valid course codes. -/
def IGNORE_CODES : List String :=
  ["FORMATION", "SEMESTER", "YEAR", "PAGE", "TOTAL", "UNITS"]

/-- Boolean membership of an (upper-cased) word in `IGNORE_CODES`. -/
def inIgnoreCodes (w : List Char) : Bool :=
  IGNORE_CODES.any (fun ig => ig.toList = w)

/-- Tail of the search pattern `\d{3,4}[A-Za-z]?`: greedily take 3-4 digits
(at least 3 must be present) and an optional trailing letter; returns the
matched characters. -/
def matchDigitsPart (cs : List Char) : Option (List Char) :=
  let ds := (cs.takeWhile Char.isDigit).take 4
  if 3 ≤ ds.length then
    match cs.drop ds.length with
    | c :: _ => if c.isAlpha then some (ds ++ [c]) else some ds
    | [] => some ds
  else none

/-- Middle of the search pattern `\s?-?\d{3,4}[A-Za-z]?`: the optional
whitespace and hyphen are consumed greedily; a whitespace (resp. hyphen) at
the head blocks every shorter alternative because it is neither a hyphen nor
a digit, so the backtracking collapses to this nested case split. -/
def matchWsDash (cs : List Char) : Option (List Char) :=
  match cs with
  | [] => none
  | c1 :: rest1 =>
      if c1.isWhitespace then
        match rest1 with
        | [] => none
        | c2 :: rest2 =>
            if c2 = '-' then (matchDigitsPart rest2).map (fun m => c1 :: c2 :: m)
            else (matchDigitsPart rest1).map (fun m => c1 :: m)
      else if c1 = '-' then (matchDigitsPart rest1).map (fun m => c1 :: m)
      else matchDigitsPart cs

/-- Letter part of the search pattern `[A-Za-z]{2,8}`, tried from `l` letters
down to 2 (the regex engine's greedy backtracking order). -/
def matchLetters (cs : List Char) : Nat → Option (List Char)
  | 0 => none
  | 1 => none
  | Nat.succ (Nat.succ k) =>
      match matchWsDash (cs.drop (k + 2)) with
      | some m => some (cs.take (k + 2) ++ m)
      | none => matchLetters cs (k + 1)

/-- Try the source pattern `([A-Za-z]{2,8}\s?-?\d{3,4}[A-Za-z]?)` anchored at
the start of `cs`. -/
def matchCodeAt (cs : List Char) : Option (List Char) :=
  matchLetters cs (min (cs.takeWhile Char.isAlpha).length 8)

/-- `re.search` of the code pattern: leftmost position wins. -/
def searchCode : List Char → Option (List Char)
  | [] => none
  | c :: rest =>
      match matchCodeAt (c :: rest) with
      | some m => some m
      | none => searchCode rest

/-- Python `s.replace(pat, "", 1)`: remove the first occurrence of `pat`. -/
def removeFirstSub (pat : List Char) : List Char → List Char
  | [] => []
  | c :: rest =>
      if prefixAt pat (c :: rest) then (c :: rest).drop pat.length
      else c :: removeFirstSub pat rest

/-- Normalization step of the source `extract_course_code`: insert a space
immediately before the first digit. -/
def insertSpaceBeforeDigit : List Char → List Char
  | [] => []
  | c :: rest =>
      if c.isDigit then ' ' :: c :: rest
      else c :: insertSpaceBeforeDigit rest

/-- Source `extract_course_code`: extract a course code from a merged string,
returning the (normalized) code and the remaining description text. -/
def extract_course_code (text : String) : Option String × String :=
  if text = "" then (none, "")
  else
    let ws := pyWords text
    let normalized := joinSpace ws
    let firstWord := (ws.headD []).map upperChar
    if inIgnoreCodes firstWord then (none, text)
    else
      match searchCode normalized with
      | none => (none, text)
      | some m =>
          let pre := (m.takeWhile Char.isAlpha).map upperChar
          if inIgnoreCodes pre then (none, text)
          else
            let code :=
              if ¬ charMem '-' m ∧ ¬ charMem ' ' m then insertSpaceBeforeDigit m
              else m
            (some (String.mk code), String.mk (trimList (removeFirstSub m normalized)))

/-- A table row: an ordered sequence of optional text cells. -/
abbrev Row := List (Option String)

/-- A table: an ordered sequence of rows; `Table[0]` is the header row. -/
abbrev Table := List Row

/-- The `units` field of a record: a float in the common case, an opaque
string marker otherwise (Python stores either in the same dict slot). -/
inductive UnitsVal where
  | num (q : ℚ)
  | str (s : String)
deriving DecidableEq

/-- One extracted course record (the Python result dictionary). -/
structure CourseRecord where
  program : String
  year : Nat
  semester : String
  code : String
  title : String
  units : UnitsVal
deriving DecidableEq

/-- Joined lower-cased text of a row's truthy cells:
`" ".join([str(x) for x in row if x]).lower()`. -/
def rowJoinLower (row : Row) : List Char :=
  (joinSpace (row.filterMap (fun c =>
    match c with
    | some s => if s = "" then none else some s.toList
    | none => none))).map lowerChar

/-- Source `_detect_layout`: classify a table as Split (`true`) or Standard
(`false`), with the reason string. -/
def _detect_layout (table : Table) : Bool × String :=
  match table with
  | [] => (false, "Empty table")
  | hdr :: _ =>
      if hdr = [] then (false, "Empty table")
      else
        let headerStr := rowJoinLower hdr
        if infixAt "lec".toList headerStr ∧ infixAt "lab".toList headerStr then
          (true, "Headers contain \x27lec\x27 and \x27lab\x27")
        else if infixAt "first semester".toList headerStr ∧
            infixAt "second semester".toList headerStr then
          (true, "Headers contain \x27first semester\x27 and \x27second semester\x27")
        else if 8 < hdr.length then
          (true, "Wide table with " ++ toString hdr.length ++ " columns")
        else (false, "Standard stacked layout")

/-- Year-marker update of the split-layout extractor (source order). -/
def splitYearUpdate (rt : List Char) (y : Nat) : Nat :=
  if infixAt "first year".toList rt ∨ infixAt "1st year".toList rt then 1
  else if infixAt "second year".toList rt ∨ infixAt "2nd year".toList rt then 2
  else if infixAt "third year".toList rt ∨ infixAt "3rd year".toList rt then 3
  else if infixAt "fourth year".toList rt ∨ infixAt "4th year".toList rt then 4
  else y

/-- One half of a split-layout row: emit a record if the half's first cell
yields a course code.  Units prefer the half's index-4 cell, falling back to
index 2 only when index 4 is absent or blank. -/
def halfRecord (pn : String) (year : Nat) (sem : String) (half : Row) :
    Option CourseRecord :=
  if half.any truthyCell ∧ truthyCell (half.headD none) then
    match extract_course_code (cleanCell (half.headD none)) with
    | (some code, _desc) =>
        let title :=
          if 1 < half.length ∧ truthyCell (half.getD 1 none) then
            cleanCell (half.getD 1 none)
          else _desc
        let units :=
          if 4 < half.length ∧ truthyCell (half.getD 4 none) then
            parse_units (cellStr (half.getD 4 none))
          else if 2 < half.length ∧ truthyCell (half.getD 2 none) then
            parse_units (cellStr (half.getD 2 none))
          else 0
        some ⟨pn, year, sem, code, title, UnitsVal.num units⟩
    | (none, _) => none
  else none

/-- One row of the split-layout extractor: skip header/total rows, update the
year context, then process the left (1st Semester) and right (2nd Semester)
halves. -/
def splitRowStep (pn : String) (midpoint : Nat) (y : Nat) (row : Row) :
    List CourseRecord × Nat :=
  let rt := rowJoinLower row
  if infixAt "course no".toList rt ∨ infixAt "total".toList rt then ([], y)
  else
    let y' := splitYearUpdate rt y
    let lrec :=
      match halfRecord pn y' "1st Semester" (row.take midpoint) with
      | some r => [r]
      | none => []
    let rrec :=
      match halfRecord pn y' "2nd Semester" (row.drop midpoint) with
      | some r => [r]
      | none => []
    (lrec ++ rrec, y')

/-- Source `_parse_split_layout`: the midpoint is computed once from the
header row's width (the Python code indexes `table[0]`, so the empty-table
case, on which it would raise, is modelled by `headD`). -/
def _parse_split_layout (table : Table) (pn : String) (current_year : Nat) :
    List CourseRecord × Nat :=
  let midpoint := (table.headD []).length / 2
  table.foldl
    (fun acc row =>
      let step := splitRowStep pn midpoint acc.2 row
      (acc.1 ++ step.1, step.2))
    ([], current_year)

/-- Year-marker update of the standard-layout extractor (source order). -/
def stdYearUpdate (rt : List Char) (y : Nat) : Nat :=
  if infixAt "1st year".toList rt ∨ infixAt "first year".toList rt then 1
  else if infixAt "2nd year".toList rt ∨ infixAt "second year".toList rt then 2
  else if infixAt "3rd year".toList rt ∨ infixAt "third year".toList rt then 3
  else if infixAt "4th year".toList rt ∨ infixAt "fourth year".toList rt then 4
  else y

/-- Semester-marker update of the standard-layout extractor (source order). -/
def stdSemUpdate (rt : List Char) (s : String) : String :=
  if infixAt "1st semester".toList rt then "1st Semester"
  else if infixAt "2nd semester".toList rt then "2nd Semester"
  else if infixAt "summer".toList rt then "Summer"
  else s

/-- Units scan of the standard-layout extractor: first cell (from the given
suffix of the row) that is truthy and parses to a positive value. -/
def scanUnits : List (Option String) → ℚ
  | [] => 0
  | c :: rest =>
      if truthyCell c ∧ 0 < parse_units (cellStr c) then parse_units (cellStr c)
      else scanUnits rest

/-- Known header labels that make the standard-layout extractor skip a row. -/
def headerLabels : List String :=
  ["course", "course code", "description", "course description", "units"]

/-- One row of the standard-layout extractor: update the year/semester
context, skip header/total/garbage rows, extract a course code from the first
cell (with the two cross-cell reassembly fallbacks), and scan for units. -/
def stdRowStep (pn : String) (y : Nat) (sem : String) (row : Row) :
    List CourseRecord × Nat × String :=
  let rt := rowJoinLower row
  let y' := stdYearUpdate rt y
  let s' := stdSemUpdate rt sem
  let firstCell := cleanCell (row.headD none)
  let firstCellLower := String.mk (firstCell.toList.map lowerChar)
  if infixAt "total number".toList rt then ([], y', s')
  else if headerLabels.any (fun l => l = firstCellLower) then ([], y', s')
  else if row.length < 2 then ([], y', s')
  else
    let secondCell := cleanCell (row.getD 1 none)
    if firstCell = "" ∧ secondCell = "" then ([], y', s')
    else if firstCell.length < 2 then ([], y', s')
    else if infixAt "semester".toList firstCellLower.toList ∨
        infixAt "year".toList firstCellLower.toList then ([], y', s')
    else
      match extract_course_code firstCell with
      | (some code, leftover) =>
          let title := if secondCell ≠ "" then secondCell else leftover
          let units := scanUnits (row.drop 2)
          ([⟨pn, y', s', code, title, UnitsVal.num units⟩], y', s')
      | (none, _) =>
          let c1 := extract_course_code (firstCell ++ secondCell)
          let c2 :=
            match c1 with
            | (some _, _) => c1
            | (none, _) => extract_course_code (firstCell ++ " " ++ secondCell)
          match c2 with
          | (some code, leftover) =>
              if 2 < row.length ∧ truthyCell (row.getD 2 none) then
                let title := cleanCell (row.getD 2 none)
                let units := scanUnits (row.drop 3)
                ([⟨pn, y', s', code, title, UnitsVal.num units⟩], y', s')
              else
                let title := if leftover ≠ "" then leftover else ""
                let units := scanUnits (row.drop 2)
                ([⟨pn, y', s', code, title, UnitsVal.num units⟩], y', s')
          | (none, _) => ([], y', s')

/-- Source `_parse_standard_layout`: fold the row step over the table,
threading the year and semester context. -/
def _parse_standard_layout (table : Table) (pn : String) (current_year : Nat)
    (current_sem : String) : List CourseRecord × Nat × String :=
  table.foldl
    (fun acc row =>
      let step := stdRowStep pn acc.2.1 acc.2.2 row
      (acc.1 ++ step.1, step.2))
    ([], current_year, current_sem)

/-- Source `MIN_CODE_LENGTH`: minimum length for a valid course code. -/
def MIN_CODE_LENGTH : Nat := 4

/-- Source `MAX_REASONABLE_UNITS`: maximum plausible unit value. -/
def MAX_REASONABLE_UNITS : ℚ := 30

/-- Source `SPECIAL_SUBJECTS`: labels preserved even without a numeral. -/
def SPECIAL_SUBJECTS : List String :=
  ["NSTP", "THESIS", "ASSEMBLY", "FYDP", "OJT", "PRACTICUM", "INTERNSHIP"]

/-- Source `_is_special_subject`: the upper-cased code contains one of the
special subject labels. -/
def _is_special_subject (code_str : String) : Bool :=
  if code_str = "" then false
  else SPECIAL_SUBJECTS.any
    (fun sp => infixAt sp.toList (code_str.toList.map upperChar))

/-- A `\w` word character of the Python regex (ASCII fragment). -/
def isWordChar (c : Char) : Bool :=
  c.isAlpha || c.isDigit || c = '_'

/-- Body of source `_contains_year`'s regex `\b(19|20)\d{2}\b`: scan with the
previous character carried for the left word boundary. -/
def containsYearAux : Option Char → List Char → Bool
  | prev, c1 :: c2 :: c3 :: c4 :: rest =>
      ((match prev with | none => true | some p => ! isWordChar p) &&
        (((c1 = '1') && (c2 = '9')) || ((c1 = '2') && (c2 = '0'))) &&
        c3.isDigit && c4.isDigit &&
        (match rest with | [] => true | c5 :: _ => ! isWordChar c5)) ||
      containsYearAux (some c1) (c2 :: c3 :: c4 :: rest)
  | _, _ => false

/-- Source `_contains_year`: the text contains a bare 4-digit 19xx/20xx year. -/
def _contains_year (text : String) : Bool :=
  if text = "" then false else containsYearAux none text.toList

/-- Match a lower-case literal at the start of `cs`, returning the rest. -/
def litThen (lit : String) (cs : List Char) : Option (List Char) :=
  if prefixAt lit.toList cs then some (cs.drop lit.length) else none

/-- Match `\s+` at the start of `cs`, returning the rest (the following
pattern element is never a whitespace char, so taking the whole run is exact). -/
def wsThen (cs : List Char) : Option (List Char) :=
  let r := cs.takeWhile Char.isWhitespace
  if r = [] then none else some (cs.drop r.length)

/-- Match a lower-case literal followed by `\s+`. -/
def litWs (lit : String) (cs : List Char) : Option (List Char) :=
  (litThen lit cs).bind wsThen

/-- Four leading digits, the `\d{4}` tail of every `HEADER_REGEX` branch. -/
def fourDigits (cs : List Char) : Bool :=
  (cs.take 4).length = 4 ∧ (cs.take 4).all Char.isDigit

/-- One of the four `HEADER_REGEX` alternatives anchored at `cs`. -/
def headerAltAt (cs : List Char) : Bool :=
  (match litWs "effective" cs with | some r => fourDigits r | none => false) ||
  (match litWs "revised" cs with | some r => fourDigits r | none => false) ||
  (match (litWs "curriculum" cs).bind (litWs "effective") with
   | some r => fourDigits r | none => false) ||
  (match (litWs "semester" cs).bind (litWs "sy") with
   | some r => fourDigits r | none => false)

/-- Unanchored scan for `headerAltAt`. -/
def headerSearchAux : List Char → Bool
  | [] => headerAltAt []
  | c :: rest => headerAltAt (c :: rest) || headerSearchAux rest

/-- Source `HEADER_REGEX.search(...)` as a boolean: the case-insensitive
header-bleed pattern occurs somewhere in the string. -/
def headerBleed (s : String) : Bool :=
  headerSearchAux (s.toList.map lowerChar)

/-- Source `VALID_CODE_PATTERN.match(...)` as a boolean: the string is
exactly `[A-Za-z]{2,6}\s?-?\d{1,5}[A-Za-z]?` (the regex `$` is modelled as
end of input). -/
def VALID_CODE_PATTERN (s : String) : Bool :=
  let cs := s.toList
  let L := cs.takeWhile Char.isAlpha
  if 2 ≤ L.length ∧ L.length ≤ 6 then
    let r1 := cs.drop L.length
    let r2 := match r1 with
      | c :: t => if c.isWhitespace then t else r1
      | [] => r1
    let r3 := match r2 with
      | c :: t => if c = '-' then t else r2
      | [] => r2
    let D := r3.takeWhile Char.isDigit
    if 1 ≤ D.length ∧ D.length ≤ 5 then
      match r3.drop D.length with
      | [] => true
      | [c] => c.isAlpha
      | _ => false
    else false
  else false

/-- Units normalization attempt of `post_process_rows`:
`float(str(units_raw).replace(",", "").strip())`, where `str(f)` of a float
round-trips exactly. -/
def unitsNormalize : UnitsVal → Option ℚ
  | UnitsVal.num q => some q
  | UnitsVal.str s => pyFloat? (String.mk (s.toList.filter (fun c => c ≠ ',')))

/-- Per-record body of the `post_process_rows` loop: `none` models the
Python `continue` that drops the record. -/
def processRecord (row : CourseRecord) : Option CourseRecord :=
  let code := String.mk (trimList row.code.toList)
  let title := String.mk (trimList row.title.toList)
  if headerBleed code ∨ headerBleed title then none
  else if ¬ _is_special_subject code ∧ ¬ VALID_CODE_PATTERN code ∧
      (code.length < MIN_CODE_LENGTH ∨ _contains_year code) then none
  else
    match unitsNormalize row.units with
    | some q =>
        if MAX_REASONABLE_UNITS < q then none
        else some { row with units := UnitsVal.num q }
    | none => some row

/-- Source `post_process_rows`: filter out parsing artifacts, order-preserving. -/
def post_process_rows (rows : List CourseRecord) : List CourseRecord :=
  rows.filterMap processRecord

/-- Per-table dispatch of source `parse_curriculum_pdf`'s inner loop: detect
the layout and run the matching extractor with the running context. -/
def tableStep (pn : String) (acc : List CourseRecord × Nat × String)
    (table : Table) : List CourseRecord × Nat × String :=
  if table = [] then acc
  else if (_detect_layout table).1 then
    let step := _parse_split_layout table pn acc.2.1
    (acc.1 ++ step.1, step.2, acc.2.2)
  else
    let step := _parse_standard_layout table pn acc.2.1 acc.2.2
    (acc.1 ++ step.1, step.2)

/-- Context-threading loop of source `parse_curriculum_pdf` over the pages'
tables, from the initial context (year 1, "1st Semester"). -/
def runPages (pn : String) (pages : List (List Table)) :
    List CourseRecord × Nat × String :=
  pages.foldl (fun acc tables => tables.foldl (tableStep pn) acc)
    ([], 1, "1st Semester")

/-- Source `parse_curriculum_pdf` restricted to its pure core: the tables the
external PDF library yields are taken as input, and the extracted records are
post-processed. -/
def parse_curriculum_tables (pages : List (List Table)) (pn : String) :
    List CourseRecord :=
  post_process_rows (runPages pn pages).1

/-- Step 3 of the spec's units-parser algorithm (§4.3): strip every
character except digits and the decimal point; parse the remainder if it is
non-empty, with 0.0 for anything unparseable. -/
def unitsStripStep (text : List Char) : ℚ :=
  let cleaned := text.filter (fun c => c.isDigit || c = '.')
  if cleaned = [] then 0 else (pyFloat? (String.mk cleaned)).getD 0

/-- The spec's units-parser algorithm as worded in §4.3: empty input is 0.0;
an input with a hyphen takes the numeric value of the last hyphen-delimited
segment, falling through to the strip step when that segment is non-numeric;
otherwise the strip step is used directly. -/
def parseUnitsSpec (s : String) : ℚ :=
  if s = "" then 0
  else
    let text := trimList s.toList
    if charMem '-' text then
      match pyFloat? (String.mk ((splitOnChar '-' text).getLastD [])) with
      | some q => q
      | none => unitsStripStep text
    else unitsStripStep text

/-- The spec's layout-classification order as worded in §4.4: empty default,
then the lecture/lab check, then the dual-semester check, then the width
check, then the Standard default. -/
def detectLayoutSpec (table : Table) : Bool × String :=
  match table with
  | [] => (false, "Empty table")
  | hdr :: _ =>
      if hdr = [] then (false, "Empty table")
      else
        let headerStr := rowJoinLower hdr
        if infixAt "lec".toList headerStr ∧ infixAt "lab".toList headerStr then
          (true, "Headers contain \x27lec\x27 and \x27lab\x27")
        else if infixAt "first semester".toList headerStr ∧
            infixAt "second semester".toList headerStr then
          (true, "Headers contain \x27first semester\x27 and \x27second semester\x27")
        else if 8 < hdr.length then
          (true, "Wide table with " ++ toString hdr.length ++ " columns")
        else (false, "Standard stacked layout")

/-- The four-row standard-layout table of the spec's first end-to-end
scenario (§8). -/
def standardScenarioTable : Table :=
  [[some "1st Year", some "", some ""],
   [some "1st Semester", some "", some ""],
   [some "ENGL 1101", some "Introduction to English", some "3.0"],
   [some "Total Units", some "", some "15"]]

/-- The 12-cell row of the spec's wide split-layout scenario (§8). -/
def splitScenarioRow : Row :=
  [some "ROBO 1101", some "Intro to Robotics", some "1", some "3", some "2",
   some "", some "", some "MATH 1001", some "Calculus", some "3", some "0",
   some "3"]

/-- A concrete 12-cell lecture/lab header row for the split scenario. -/
def scenarioHeader : Row :=
  [some "Course No.", some "Course Title", some "Lec", some "Lab", some "Units",
   some "", some "Course No.", some "Course Title", some "Lec", some "Lab",
   some "Units", some ""]

/-- A 12-cell row whose left half has a truthy zero at units index 4 and a
"3" at index 2. -/
def zeroUnitsRow : Row :=
  [some "AB 1234", some "Title", some "3", some "", some "0", some "",
   some "", some "", some "", some "", some "", some ""]

/-- A six-cell half row whose index-4 cell is "2". -/
def fallbackHalf : Row :=
  [some "AB 1234", some "T", some "3", none, some "2", none]

/-- Units-normalized copy of a record: the only mutation `post_process_rows`
ever applies to a kept record. -/
def normUnitsRecord (r : CourseRecord) : CourseRecord :=
  match unitsNormalize r.units with
  | some q => { r with units := UnitsVal.num q }
  | none => r

/-- Year markers recognized by the extractors' context updates. -/
def hasYearMarker (rt : List Char) : Bool :=
  infixAt "first year".toList rt || infixAt "1st year".toList rt ||
  infixAt "second year".toList rt || infixAt "2nd year".toList rt ||
  infixAt "third year".toList rt || infixAt "3rd year".toList rt ||
  infixAt "fourth year".toList rt || infixAt "4th year".toList rt

/-- Semester markers recognized by the standard-layout extractor. -/
def hasSemMarker (rt : List Char) : Bool :=
  infixAt "1st semester".toList rt || infixAt "2nd semester".toList rt ||
  infixAt "summer".toList rt

/-- The year values the parse context may take. -/
def yearInRange (y : Nat) : Prop := y = 1 ∨ y = 2 ∨ y = 3 ∨ y = 4

/-- The semester values the parse context may take. -/
def semInRange (s : String) : Prop :=
  s = "1st Semester" ∨ s = "2nd Semester" ∨ s = "Summer"

example : extract_course_code "ENGL 1101" = (some "ENGL 1101", "") := by decide

example : extract_course_code "MATH1001" = (some "MATH 1001", "") := by decide

example : extract_course_code "FORMATION 123" = (none, "FORMATION 123") := by decide

example : extract_course_code "ENGL 1101 Introduction to English" =
    (some "ENGL 1101", "Introduction to English") := by decide

example : extract_course_code "CSc-1100" = (some "CSc-1100", "") := by decide

example : extract_course_code "BIO 100A" = (some "BIO 100A", "") := by decide

example : extract_course_code "" = (none, "") := by decide

example : extract_course_code "hello" = (none, "hello") := by decide

/-- C3: the standard-layout scenario table, processed from the default
context (year 1, "1st Semester") by the standard-layout extractor followed by
post-processing, yields exactly one record: year 1, semester "1st Semester",
code "ENGL 1101", title "Introduction to English", units 3.0 (for any program
name). -/
theorem end_to_end_standard_scenario (pn : String) :
    post_process_rows
        (_parse_standard_layout standardScenarioTable pn 1 "1st Semester").1 =
      [⟨pn, 1, "1st Semester", "ENGL 1101", "Introduction to English",
        UnitsVal.num 3⟩] := by
  rfl

/-- Witness for C3 at a concrete program name. -/
theorem end_to_end_standard_scenario_witness :
    post_process_rows
        (_parse_standard_layout standardScenarioTable "Prog" 1 "1st Semester").1 =
      [⟨"Prog", 1, "1st Semester", "ENGL 1101", "Introduction to English",
        UnitsVal.num 3⟩] :=
  end_to_end_standard_scenario "Prog"

/-- C4: the three course-code extractor examples of the spec — a code with a
space is returned as written with empty remainder, "MATH1001" gets a space
inserted before the first digit, and "FORMATION 123" is rejected because its
first token is in the ignore-set, returning the original string. -/
theorem extract_course_code_examples :
    extract_course_code "ENGL 1101" = (some "ENGL 1101", "") ∧
    extract_course_code "MATH1001" = (some "MATH 1001", "") ∧
    extract_course_code "FORMATION 123" = (none, "FORMATION 123") := by
  refine ⟨?_, ?_, ?_⟩ <;> decide

/-- C5: the units parser is total (it is a plain function to `ℚ`; every
Python exception path is caught inside it), agrees everywhere with the
spec's §4.3 algorithm — empty input 0.0, hyphenated input takes the float of
the last hyphen segment with fall-through to the digit/dot-stripping step —
and gives the three example values. -/
theorem parse_units_matches_spec :
    (∀ s, parse_units s = parseUnitsSpec s) ∧
    parse_units "1-3-2" = 2 ∧ parse_units "3.0" = 3 ∧ parse_units "NC" = 0 := by
  refine ⟨fun s => rfl, by decide, by decide, by decide⟩

/-- C6: the layout classifier follows exactly the spec's decision order
(empty → Standard; lecture and lab markers → Split; dual semester headers →
Split; more than 8 header cells → Split; otherwise Standard).  It is a plain
function of the table, so classifying the same table twice trivially yields
the same (layout, reason) pair. -/
theorem detect_layout_matches_spec :
    (∀ t : Table, _detect_layout t = detectLayoutSpec t) ∧
    _detect_layout [] = (false, "Empty table") ∧
    _detect_layout [[]] = (false, "Empty table") := by
  refine ⟨fun t => rfl, rfl, rfl⟩

/-- Unfolding of `_parse_split_layout` on a two-row table. -/
theorem parse_split_two_rows (pn : String) (y : Nat) (hdr row : Row) :
    _parse_split_layout [hdr, row] pn y =
      ((splitRowStep pn (hdr.length / 2) y hdr).1 ++
        (splitRowStep pn (hdr.length / 2)
          (splitRowStep pn (hdr.length / 2) y hdr).2 row).1,
       (splitRowStep pn (hdr.length / 2)
          (splitRowStep pn (hdr.length / 2) y hdr).2 row).2) :=
  rfl

/-- C1 counterexample: on the spec's 12-column split scenario the code emits
exactly ONE record, not two.  The midpoint is 6, so the right half of the row
starts at the blank cell of index 6 and `left_side[0]`-style truthiness
skips the whole right half; no "MATH 1001" record is produced. -/
theorem split_scenario_counterexample :
    _detect_layout [scenarioHeader, splitScenarioRow] =
      (true, "Headers contain \x27lec\x27 and \x27lab\x27") ∧
    (_parse_split_layout [scenarioHeader, splitScenarioRow] "P" 1).1 =
      [⟨"P", 1, "1st Semester", "ROBO 1101", "Intro to Robotics",
        UnitsVal.num 2⟩] ∧
    (_parse_split_layout [scenarioHeader, splitScenarioRow] "P" 1).1.length ≠ 2 := by
  refine ⟨by decide, by decide, by decide⟩

/-- C1 amended: for every 12-cell header row with lecture and lab markers
(and a "course no" marker so that the header row itself is skipped as a data
row), the table is classified Split and processing the scenario row yields
exactly one record — the left half (code "ROBO 1101", "1st Semester", units
2.0 from the half's index-4 cell); the right half yields none because with
midpoint 6 its first cell is the row's blank seventh cell. -/
theorem split_scenario_amended (pn : String) (y : Nat) (hdr : Row)
    (hlen : hdr.length = 12)
    (hlec : infixAt "lec".toList (rowJoinLower hdr) = true)
    (hlab : infixAt "lab".toList (rowJoinLower hdr) = true)
    (hskip : infixAt "course no".toList (rowJoinLower hdr) = true) :
    _detect_layout (hdr :: [splitScenarioRow]) =
      (true, "Headers contain \x27lec\x27 and \x27lab\x27") ∧
    _parse_split_layout (hdr :: [splitScenarioRow]) pn y =
      ([⟨pn, y, "1st Semester", "ROBO 1101", "Intro to Robotics",
        UnitsVal.num 2⟩], y) := by
  have hne : hdr ≠ [] := by
    intro h
    rw [h] at hlen
    simp at hlen
  constructor
  · show (if hdr = [] then (false, "Empty table")
      else
        let headerStr := rowJoinLower hdr
        if infixAt "lec".toList headerStr = true ∧ infixAt "lab".toList headerStr = true then
          (true, "Headers contain \x27lec\x27 and \x27lab\x27")
        else if infixAt "first semester".toList headerStr = true ∧
            infixAt "second semester".toList headerStr = true then
          (true, "Headers contain \x27first semester\x27 and \x27second semester\x27")
        else if 8 < hdr.length then
          (true, "Wide table with " ++ toString hdr.length ++ " columns")
        else (false, "Standard stacked layout")) =
      (true, "Headers contain \x27lec\x27 and \x27lab\x27")
    rw [if_neg hne]
    exact if_pos ⟨hlec, hlab⟩
  · have hstep1 : splitRowStep pn 6 y hdr = ([], y) := by
      unfold splitRowStep
      rw [if_pos (Or.inl hskip)]
    have hstep2 : splitRowStep pn 6 y splitScenarioRow =
        ([⟨pn, y, "1st Semester", "ROBO 1101", "Intro to Robotics",
          UnitsVal.num 2⟩], y) := rfl
    rw [parse_split_two_rows, hlen]
    rw [show (12 : Nat) / 2 = 6 from rfl, hstep1, hstep2]
    rfl

/-- Witness for C1's amended theorem at the concrete scenario header. -/
theorem split_scenario_amended_witness :
    _detect_layout (scenarioHeader :: [splitScenarioRow]) =
      (true, "Headers contain \x27lec\x27 and \x27lab\x27") ∧
    _parse_split_layout (scenarioHeader :: [splitScenarioRow]) "P" 1 =
      ([⟨"P", 1, "1st Semester", "ROBO 1101", "Intro to Robotics",
        UnitsVal.num 2⟩], 1) :=
  split_scenario_amended "P" 1 scenarioHeader (by decide) (by decide)
    (by decide) (by decide)

/-- C2 counterexample: the claim says the extractor falls back to the half's
index-2 cell whenever the index-4 cell is blank OR parses to zero; but on a
half whose index-4 cell is the truthy string "0" the code takes index 4 and
emits units 0.0 — it does not fall back to the "3" at index 2. -/
theorem split_units_zero_counterexample :
    (_parse_split_layout [scenarioHeader, zeroUnitsRow] "P" 1).1 =
      [⟨"P", 1, "1st Semester", "AB 1234", "Title", UnitsVal.num 0⟩] ∧
    parse_units "3" = 3 ∧
    UnitsVal.num 0 ≠ UnitsVal.num 3 := by
  refine ⟨by decide, by decide, by decide⟩

/-- C2 amended: in split-layout extraction the units of an emitted record
come from the half's index-4 cell whenever that cell exists and is truthy
(regardless of the value it parses to); the index-2 cell is used only when
index 4 is absent or blank, and 0.0 when neither is available. -/
theorem split_units_fallback_amended (pn : String) (y : Nat) (sem : String)
    (half : Row) (r : CourseRecord)
    (h : halfRecord pn y sem half = some r) :
    (4 < half.length ∧ truthyCell (half.getD 4 none) = true →
      r.units = UnitsVal.num (parse_units (cellStr (half.getD 4 none)))) ∧
    (¬(4 < half.length ∧ truthyCell (half.getD 4 none) = true) →
      2 < half.length ∧ truthyCell (half.getD 2 none) = true →
      r.units = UnitsVal.num (parse_units (cellStr (half.getD 2 none)))) ∧
    (¬(4 < half.length ∧ truthyCell (half.getD 4 none) = true) →
      ¬(2 < half.length ∧ truthyCell (half.getD 2 none) = true) →
      r.units = UnitsVal.num 0) := by
  unfold halfRecord at h
  by_cases hg : (half.any truthyCell = true) ∧ (truthyCell (half.headD none) = true)
  · rw [if_pos hg] at h
    rcases hx : extract_course_code (cleanCell (half.headD none)) with ⟨oc, d⟩
    rw [hx] at h
    cases oc with
    | none => exact absurd h (by simp)
    | some code =>
        simp only [Option.some.injEq] at h
        subst h
        refine ⟨fun h4 => ?_, fun h4 h2 => ?_, fun h4 h2 => ?_⟩
        · simp only [if_pos h4]
        · simp only [if_neg h4, if_pos h2]
        · simp only [if_neg h4, if_neg h2]
  · rw [if_neg hg] at h
    exact absurd h (by simp)

/-- Witness for C2's amended theorem at a concrete half row. -/
theorem split_units_fallback_amended_witness :
    (⟨"P", 1, "1st Semester", "AB 1234", "T", UnitsVal.num 2⟩ :
      CourseRecord).units =
      UnitsVal.num (parse_units (cellStr (fallbackHalf.getD 4 none))) :=
  (split_units_fallback_amended "P" 1 "1st Semester" fallbackHalf
    ⟨"P", 1, "1st Semester", "AB 1234", "T", UnitsVal.num 2⟩ (by decide)).1
    (by decide)

/-- C8 counterexample: a record whose code "THESIS" is a special subject and
whose code/title match no header-bleed pattern is nevertheless DROPPED by the
validator when its units value exceeds 30.0 — the claim as stated (kept
unconditionally) is false. -/
theorem special_subject_units_counterexample :
    _is_special_subject "THESIS" = true ∧
    headerBleed "THESIS" = false ∧
    headerBleed "Research" = false ∧
    VALID_CODE_PATTERN "THESIS" = false ∧
    processRecord
        ⟨"P", 1, "1st Semester", "THESIS", "Research", UnitsVal.num 31⟩ =
      none := by
  refine ⟨by decide, by decide, by decide, by decide, by decide⟩

/-- C8 amended: a record whose (trimmed) code contains a special-subject
label and whose trimmed code and title match no header-bleed pattern is kept
by the validator — even though the code does not match the canonical code
shape — provided its units value does not normalize to a number exceeding
30.0. -/
theorem special_subject_kept_amended (r : CourseRecord)
    (hsp : _is_special_subject (String.mk (trimList r.code.toList)) = true)
    (hc : headerBleed (String.mk (trimList r.code.toList)) = false)
    (ht : headerBleed (String.mk (trimList r.title.toList)) = false)
    (hu : unitsNormalize r.units = none ∨
      ∃ q, unitsNormalize r.units = some q ∧ q ≤ MAX_REASONABLE_UNITS) :
    ∃ r', processRecord r = some r' := by
  unfold processRecord
  simp only [hsp, hc, ht]
  rcases hu with hn | ⟨q, hq, hle⟩
  · rw [hn]
    simp
  · rw [hq]
    simp only [if_neg (not_lt.mpr hle)]
    simp

/-- Witness for C8's amended theorem at a concrete THESIS record. -/
theorem special_subject_kept_amended_witness :
    ∃ r', processRecord
        ⟨"P", 1, "1st Semester", "THESIS", "Research", UnitsVal.num 6⟩ =
      some r' :=
  special_subject_kept_amended
    ⟨"P", 1, "1st Semester", "THESIS", "Research", UnitsVal.num 6⟩
    (by decide) (by decide) (by decide) (Or.inr ⟨6, rfl, by decide⟩)

/-- Every record kept by the per-record pass is its units-normalized copy. -/
theorem processRecord_norm (r r' : CourseRecord)
    (h : processRecord r = some r') : r' = normUnitsRecord r := by
  simp only [processRecord] at h
  split at h
  · exact absurd h (by simp)
  · split at h
    · exact absurd h (by simp)
    · unfold normUnitsRecord
      split at h
      · split at h
        · exact absurd h (by simp)
        · exact (Option.some.injEq _ _ ▸ h).symm
      · exact (Option.some.injEq _ _ ▸ h).symm

/-- A record whose units normalize beyond the ceiling is always dropped. -/
theorem processRecord_absurd_drop (r : CourseRecord) (q : ℚ)
    (hu : unitsNormalize r.units = some q)
    (hgt : MAX_REASONABLE_UNITS < q) : processRecord r = none := by
  simp only [processRecord]
  split
  · rfl
  · split
    · rfl
    · rw [hu]
      exact if_pos hgt

/-- The kept records form a sublist of the normalized input list. -/
theorem post_process_sublist (rows : List CourseRecord) :
    (post_process_rows rows).Sublist (rows.map normUnitsRecord) := by
  induction rows with
  | nil => simp [post_process_rows]
  | cons a l ih =>
      unfold post_process_rows at ih ⊢
      simp only [List.filterMap_cons, List.map_cons]
      rcases h : processRecord a with _ | r'
      · exact ih.cons _
      · rw [processRecord_norm a r' h]
        exact ih.cons₂ _

/-- C7: post-processing never grows the list and is an order-preserving
selection (a sublist of the per-record normalized input); a kept record whose
units were numeric on input keeps that numeric value, which is at most 30.0;
a record whose units normalize beyond 30.0 is dropped; non-numeric units are
left untouched on kept records. -/
theorem post_process_shrink_and_units :
    (∀ rows, (post_process_rows rows).length ≤ rows.length) ∧
    (∀ rows, (post_process_rows rows).Sublist (rows.map normUnitsRecord)) ∧
    (∀ r r' q, r.units = UnitsVal.num q → processRecord r = some r' →
      r'.units = UnitsVal.num q ∧ q ≤ MAX_REASONABLE_UNITS) ∧
    (∀ r q, unitsNormalize r.units = some q → MAX_REASONABLE_UNITS < q →
      processRecord r = none) ∧
    (∀ r r', unitsNormalize r.units = none → processRecord r = some r' →
      r'.units = r.units) := by
  refine ⟨fun rows => List.length_filterMap_le _ _, post_process_sublist,
    fun r r' q hq h => ?_, processRecord_absurd_drop, fun r r' hu h => ?_⟩
  · have hu : unitsNormalize r.units = some q := by rw [hq]; rfl
    constructor
    · rw [processRecord_norm r r' h]
      unfold normUnitsRecord
      rw [hu]
    · by_contra hgt
      push_neg at hgt
      rw [processRecord_absurd_drop r q hu hgt] at h
      exact absurd h (by simp)
  · rw [processRecord_norm r r' h]
    unfold normUnitsRecord
    rw [hu]

/-- Witness for C7's numeric-units conjunct at a concrete record. -/
theorem post_process_shrink_and_units_witness :
    (⟨"P", 1, "1st Semester", "MATH 101", "x", UnitsVal.num 3⟩ :
      CourseRecord).units = UnitsVal.num 3 ∧ (3 : ℚ) ≤ MAX_REASONABLE_UNITS :=
  post_process_shrink_and_units.2.2.1
    ⟨"P", 1, "1st Semester", "MATH 101", "x", UnitsVal.num 3⟩
    ⟨"P", 1, "1st Semester", "MATH 101", "x", UnitsVal.num 3⟩ 3 rfl (by decide)

/-- Invariants survive a left fold when each step preserves them. -/
theorem foldl_inv {α β : Type} (f : β → α → β) (P : β → Prop)
    (hf : ∀ b a, P b → P (f b a)) :
    ∀ (l : List α) (b : β), P b → P (l.foldl f b) := by
  intro l
  induction l with
  | nil => exact fun b hb => hb
  | cons a t ih => exact fun b hb => ih _ (hf _ _ hb)

/-- The split extractor's year update stays in range. -/
theorem splitYearUpdate_range (rt : List Char) (y : Nat) (h : yearInRange y) :
    yearInRange (splitYearUpdate rt y) := by
  unfold splitYearUpdate
  split_ifs <;>
    first
      | exact Or.inl rfl
      | exact Or.inr (Or.inl rfl)
      | exact Or.inr (Or.inr (Or.inl rfl))
      | exact Or.inr (Or.inr (Or.inr rfl))
      | exact h

/-- The standard extractor's year update stays in range. -/
theorem stdYearUpdate_range (rt : List Char) (y : Nat) (h : yearInRange y) :
    yearInRange (stdYearUpdate rt y) := by
  unfold stdYearUpdate
  split_ifs <;>
    first
      | exact Or.inl rfl
      | exact Or.inr (Or.inl rfl)
      | exact Or.inr (Or.inr (Or.inl rfl))
      | exact Or.inr (Or.inr (Or.inr rfl))
      | exact h

/-- The standard extractor's semester update stays in range. -/
theorem stdSemUpdate_range (rt : List Char) (s : String) (h : semInRange s) :
    semInRange (stdSemUpdate rt s) := by
  unfold stdSemUpdate
  split_ifs <;>
    first
      | exact Or.inl rfl
      | exact Or.inr (Or.inl rfl)
      | exact Or.inr (Or.inr rfl)
      | exact h

/-- Without a year marker the split extractor's year update is the identity. -/
theorem splitYearUpdate_nomarker (rt : List Char) (y : Nat)
    (h : hasYearMarker rt = false) : splitYearUpdate rt y = y := by
  simp only [hasYearMarker, Bool.or_eq_false_iff] at h
  obtain ⟨⟨⟨⟨⟨⟨⟨h1, h2⟩, h3⟩, h4⟩, h5⟩, h6⟩, h7⟩, h8⟩ := h
  unfold splitYearUpdate
  rw [if_neg (by rw [h1, h2]; simp), if_neg (by rw [h3, h4]; simp),
    if_neg (by rw [h5, h6]; simp), if_neg (by rw [h7, h8]; simp)]

/-- Without a year marker the standard extractor's year update is the
identity. -/
theorem stdYearUpdate_nomarker (rt : List Char) (y : Nat)
    (h : hasYearMarker rt = false) : stdYearUpdate rt y = y := by
  simp only [hasYearMarker, Bool.or_eq_false_iff] at h
  obtain ⟨⟨⟨⟨⟨⟨⟨h1, h2⟩, h3⟩, h4⟩, h5⟩, h6⟩, h7⟩, h8⟩ := h
  unfold stdYearUpdate
  rw [if_neg (by rw [h1, h2]; simp), if_neg (by rw [h3, h4]; simp),
    if_neg (by rw [h5, h6]; simp), if_neg (by rw [h7, h8]; simp)]

/-- Without a semester marker the standard extractor's semester update is the
identity. -/
theorem stdSemUpdate_nomarker (rt : List Char) (s : String)
    (h : hasSemMarker rt = false) : stdSemUpdate rt s = s := by
  simp only [hasSemMarker, Bool.or_eq_false_iff] at h
  obtain ⟨⟨h1, h2⟩, h3⟩ := h
  unfold stdSemUpdate
  rw [if_neg (by rw [h1]; simp), if_neg (by rw [h2]; simp),
    if_neg (by rw [h3]; simp)]

/-- The context part of one standard-extractor row step is exactly the pair
of marker updates. -/
theorem stdRowStep_ctx (pn : String) (y : Nat) (sem : String) (row : Row) :
    (stdRowStep pn y sem row).2 =
      (stdYearUpdate (rowJoinLower row) y, stdSemUpdate (rowJoinLower row) sem) := by
  simp only [stdRowStep]
  repeat' split
  all_goals rfl

/-- One split-extractor row step keeps the year in range. -/
theorem splitRowStep_year_range (pn : String) (mid y : Nat) (row : Row)
    (h : yearInRange y) : yearInRange (splitRowStep pn mid y row).2 := by
  simp only [splitRowStep]
  split
  · exact h
  · exact splitYearUpdate_range _ _ h

/-- The split extractor keeps the year in range over a whole table. -/
theorem parse_split_year_range (t : Table) (pn : String) (y : Nat)
    (h : yearInRange y) : yearInRange (_parse_split_layout t pn y).2 := by
  unfold _parse_split_layout
  apply foldl_inv _ (fun acc : List CourseRecord × Nat => yearInRange acc.2)
  · intro b a hb
    exact splitRowStep_year_range _ _ _ _ hb
  · exact h

/-- The standard extractor keeps both context parts in range over a table. -/
theorem parse_std_ctx_range (t : Table) (pn : String) (y : Nat) (sem : String)
    (hy : yearInRange y) (hs : semInRange sem) :
    yearInRange (_parse_standard_layout t pn y sem).2.1 ∧
      semInRange (_parse_standard_layout t pn y sem).2.2 := by
  unfold _parse_standard_layout
  apply foldl_inv _
    (fun acc : List CourseRecord × Nat × String =>
      yearInRange acc.2.1 ∧ semInRange acc.2.2)
  case a => exact ⟨hy, hs⟩
  intro b a hb
  have hc := stdRowStep_ctx pn b.2.1 b.2.2 a
  constructor
  · show yearInRange (stdRowStep pn b.2.1 b.2.2 a).2.1
    rw [hc]
    exact stdYearUpdate_range _ _ hb.1
  · show semInRange (stdRowStep pn b.2.1 b.2.2 a).2.2
    rw [hc]
    exact stdSemUpdate_range _ _ hb.2

/-- One table dispatch step keeps both context parts in range. -/
theorem tableStep_range (pn : String) (acc : List CourseRecord × Nat × String)
    (table : Table) (h : yearInRange acc.2.1 ∧ semInRange acc.2.2) :
    yearInRange (tableStep pn acc table).2.1 ∧
      semInRange (tableStep pn acc table).2.2 := by
  unfold tableStep
  split
  · exact h
  · split
    · exact ⟨parse_split_year_range _ _ _ h.1, h.2⟩
    · exact parse_std_ctx_range _ _ _ _ h.1 h.2

/-- C9: the parse context is an invariant-preserving state machine — starting
from (1, "1st Semester") the year stays in {1,2,3,4} and the semester in
{"1st Semester","2nd Semester","Summer"} across every page and table; and a
row whose joined lower-cased text contains no year marker (resp. no semester
marker) leaves the year (resp. semester) unchanged in either extractor.  The
split extractor never touches the semester at all (its step returns no
semester component), so only its year part appears here. -/
theorem context_invariants :
    (∀ pn pages, yearInRange (runPages pn pages).2.1 ∧
      semInRange (runPages pn pages).2.2) ∧
    (∀ pn mid y row, hasYearMarker (rowJoinLower row) = false →
      (splitRowStep pn mid y row).2 = y) ∧
    (∀ pn y sem row, hasYearMarker (rowJoinLower row) = false →
      (stdRowStep pn y sem row).2.1 = y) ∧
    (∀ pn y sem row, hasSemMarker (rowJoinLower row) = false →
      (stdRowStep pn y sem row).2.2 = sem) := by
  refine ⟨fun pn pages => ?_, fun pn mid y row h => ?_, fun pn y sem row h => ?_,
    fun pn y sem row h => ?_⟩
  · unfold runPages
    apply foldl_inv _
      (fun acc : List CourseRecord × Nat × String =>
        yearInRange acc.2.1 ∧ semInRange acc.2.2)
    · intro b a hb
      apply foldl_inv _
        (fun acc : List CourseRecord × Nat × String =>
          yearInRange acc.2.1 ∧ semInRange acc.2.2)
      · intro b' a' hb'
        exact tableStep_range pn b' a' hb'
      · exact hb
    · exact ⟨Or.inl rfl, Or.inl rfl⟩
  · simp only [splitRowStep]
    split
    · rfl
    · exact splitYearUpdate_nomarker _ _ h
  · have hc := stdRowStep_ctx pn y sem row
    have : (stdRowStep pn y sem row).2.1 = stdYearUpdate (rowJoinLower row) y := by
      rw [hc]
    rw [this]
    exact stdYearUpdate_nomarker _ _ h
  · have hc := stdRowStep_ctx pn y sem row
    have : (stdRowStep pn y sem row).2.2 = stdSemUpdate (rowJoinLower row) sem := by
      rw [hc]
    rw [this]
    exact stdSemUpdate_nomarker _ _ h

/-- Witness for C9's no-marker conjuncts at a concrete row and context. -/
theorem context_invariants_witness :
    (splitRowStep "P" 6 3 [some "ENGL 1101", some "T", some "3"]).2 = 3 :=
  context_invariants.2.1 "P" 6 3 [some "ENGL 1101", some "T", some "3"]
    (by decide)

/-- ASCII letters and digits occupy disjoint code ranges. -/
theorem alpha_not_digit (c : Char) (h : c.isAlpha = true) : c.isDigit = false := by
  simp only [Char.isAlpha, Char.isUpper, Char.isLower, Char.isDigit,
    Bool.or_eq_true, Bool.and_eq_true, decide_eq_true_eq] at h
  simp only [Char.isDigit]
  rw [Bool.and_eq_false_iff]
  simp only [decide_eq_false_iff_not, UInt32.not_le]
  right
  rw [UInt32.lt_def, BitVec.lt_def]
  rw [show ((57 : UInt32).toBitVec).toNat = 57 from by decide]
  rcases h with ⟨h1, _⟩ | ⟨h1, _⟩
  · have h1' := BitVec.le_def.mp (UInt32.le_def.mp h1)
    rw [show ((65 : UInt32).toBitVec).toNat = 65 from by decide] at h1'
    omega
  · have h1' := BitVec.le_def.mp (UInt32.le_def.mp h1)
    rw [show ((97 : UInt32).toBitVec).toNat = 97 from by decide] at h1'
    omega

/-- A letter is not the space character. -/
theorem alpha_ne_space (c : Char) (h : c.isAlpha = true) : c ≠ ' ' := by
  intro hc
  subst hc
  exact absurd h (by decide)

/-- A letter is not the hyphen character. -/
theorem alpha_ne_dash (c : Char) (h : c.isAlpha = true) : c ≠ '-' := by
  intro hc
  subst hc
  exact absurd h (by decide)

/-- A digit is not the space character. -/
theorem digit_ne_space (c : Char) (h : c.isDigit = true) : c ≠ ' ' := by
  intro hc
  subst hc
  exact absurd h (by decide)

/-- A digit is not the hyphen character. -/
theorem digit_ne_dash (c : Char) (h : c.isDigit = true) : c ≠ '-' := by
  intro hc
  subst hc
  exact absurd h (by decide)

/-- Absence of a character, expressed through `charMem`. -/
theorem charMem_eq_false (c : Char) (cs : List Char) (h : ∀ x ∈ cs, x ≠ c) :
    charMem c cs = false := by
  unfold charMem
  rw [List.any_eq_false]
  intro x hx
  simp only [decide_eq_true_eq]
  exact h x hx

/-- Presence of a character, expressed through `charMem`. -/
theorem charMem_eq_true (c : Char) (cs : List Char) (h : c ∈ cs) :
    charMem c cs = true := by
  unfold charMem
  rw [List.any_eq_true]
  exact ⟨c, h, by simp⟩

/-- Shape of a digits-part match: 3-4 digits, an optional trailing letter,
and the match is a prefix of the input. -/
theorem matchDigitsPart_shape (cs m : List Char)
    (h : matchDigitsPart cs = some m) :
    ∃ ds t, m = ds ++ t ∧ ds ≠ [] ∧ (∀ c ∈ ds, c.isDigit = true) ∧
      (t = [] ∨ ∃ c, t = [c] ∧ c.isAlpha = true) ∧ m <+: cs := by
  simp only [matchDigitsPart] at h
  have hdsd : ∀ c ∈ (cs.takeWhile Char.isDigit).take 4, c.isDigit = true :=
    fun c hc => List.mem_takeWhile_imp (List.mem_of_mem_take hc)
  have hdsp : (cs.takeWhile Char.isDigit).take 4 <+: cs :=
    (List.take_prefix _ _).trans (List.takeWhile_prefix _)
  have hcseq : cs = (cs.takeWhile Char.isDigit).take 4 ++
      cs.drop ((cs.takeWhile Char.isDigit).take 4).length := by
    conv_lhs => rw [← List.take_append_drop
      ((cs.takeWhile Char.isDigit).take 4).length cs]
    rw [← List.prefix_iff_eq_take.mp hdsp]
  split at h
  · next h3 =>
      split at h
      · next c rest hdrop =>
          split at h
          · next hca =>
              rw [Option.some.injEq] at h
              subst h
              refine ⟨_, [c], rfl, ?_, hdsd, Or.inr ⟨c, rfl, hca⟩, ?_⟩
              · intro he
                rw [he] at h3
                exact absurd h3 (by decide)
              · refine ⟨rest, ?_⟩
                conv_rhs => rw [hcseq, hdrop]
                simp
          · rw [Option.some.injEq] at h
            subst h
            refine ⟨_, [], by simp, ?_, hdsd, Or.inl rfl, hdsp⟩
            intro he
            rw [he] at h3
            exact absurd h3 (by decide)
      · rw [Option.some.injEq] at h
        subst h
        refine ⟨_, [], by simp, ?_, hdsd, Or.inl rfl, hdsp⟩
        intro he
        rw [he] at h3
        exact absurd h3 (by decide)
  · exact absurd h (by simp)

/-- Shape of a whitespace/hyphen-part match: an optional separator (one
whitespace character, possibly followed by a hyphen, or a lone hyphen)
followed by a digits-part match; the match is a prefix of the input. -/
theorem matchWsDash_shape (cs m : List Char) (h : matchWsDash cs = some m) :
    ∃ sep rest, m = sep ++ rest ∧
      matchDigitsPart (cs.drop sep.length) = some rest ∧
      (sep = [] ∨ (∃ w, w.isWhitespace = true ∧ (sep = [w] ∨ sep = [w, '-'])) ∨
        sep = ['-']) ∧
      m <+: cs := by
  simp only [matchWsDash] at h
  split at h
  · exact absurd h (by simp)
  · next c1 rest1 =>
      split at h
      · next hws =>
          split at h
          · exact absurd h (by simp)
          · next c2 rest2 =>
              split at h
              · next hc2 =>
                  rw [Option.map_eq_some'] at h
                  obtain ⟨m', hm', rfl⟩ := h
                  obtain ⟨_, _, _, _, _, _, hp⟩ := matchDigitsPart_shape _ _ hm'
                  subst hc2
                  refine ⟨[c1, '-'], m', rfl, hm', Or.inr (Or.inl ⟨c1, hws, Or.inr rfl⟩), ?_⟩
                  obtain ⟨t, ht⟩ := hp
                  exact ⟨t, by rw [← ht]; simp⟩
              · rw [Option.map_eq_some'] at h
                obtain ⟨m', hm', rfl⟩ := h
                obtain ⟨_, _, _, _, _, _, hp⟩ := matchDigitsPart_shape _ _ hm'
                refine ⟨[c1], m', rfl, hm', Or.inr (Or.inl ⟨c1, hws, Or.inl rfl⟩), ?_⟩
                obtain ⟨t, ht⟩ := hp
                exact ⟨t, by rw [← ht]; simp⟩
      · split at h
        · next hd =>
            rw [Option.map_eq_some'] at h
            obtain ⟨m', hm', rfl⟩ := h
            obtain ⟨_, _, _, _, _, _, hp⟩ := matchDigitsPart_shape _ _ hm'
            subst hd
            refine ⟨['-'], m', rfl, hm', Or.inr (Or.inr rfl), ?_⟩
            obtain ⟨t, ht⟩ := hp
            exact ⟨t, by rw [← ht]; simp⟩
        · obtain ⟨_, _, _, _, _, _, hp⟩ := matchDigitsPart_shape _ _ h
          exact ⟨[], m, by simp, h, Or.inl rfl, hp⟩

/-- Shape of the letter-part search: some length `l` between 2 and the bound
is taken, the tail matches the whitespace/hyphen part, and the match is a
prefix of the input. -/
theorem matchLetters_shape (cs : List Char) (n : Nat) (m : List Char)
    (h : matchLetters cs n = some m) :
    ∃ l rest, 2 ≤ l ∧ l ≤ n ∧ m = cs.take l ++ rest ∧
      matchWsDash (cs.drop l) = some rest ∧ m <+: cs := by
  induction n with
  | zero => exact absurd h (by simp [matchLetters])
  | succ k ih =>
      cases k with
      | zero => exact absurd h (by simp [matchLetters])
      | succ k' =>
          simp only [matchLetters] at h
          split at h
          · next m' hm' =>
              rw [Option.some.injEq] at h
              subst h
              refine ⟨k' + 2, m', by omega, by omega, rfl, hm', ?_⟩
              obtain ⟨_, _, _, _, _, hp⟩ := matchWsDash_shape _ _ hm'
              obtain ⟨t, ht⟩ := hp
              refine ⟨t, ?_⟩
              conv_rhs => rw [← List.take_append_drop (k' + 2) cs]
              rw [← ht]
              simp
          · obtain ⟨l, rest, h2, hn, hm, hw, hp⟩ := ih h
            exact ⟨l, rest, h2, by omega, hm, hw, hp⟩

/-- Shape of an anchored code match: at least two leading letters, then the
whitespace/hyphen separator and digits part; the match is a prefix. -/
theorem matchCodeAt_shape (cs m : List Char) (h : matchCodeAt cs = some m) :
    ∃ l rest, 2 ≤ l ∧ (cs.take l).length = l ∧
      (∀ c ∈ cs.take l, c.isAlpha = true) ∧
      m = cs.take l ++ rest ∧ matchWsDash (cs.drop l) = some rest ∧
      m <+: cs := by
  unfold matchCodeAt at h
  obtain ⟨l, rest, h2, hn, hm, hw, hp⟩ := matchLetters_shape _ _ _ h
  have hl : l ≤ (cs.takeWhile Char.isAlpha).length :=
    le_trans hn (min_le_left _ _)
  have hlen : (cs.take l).length = l := by
    rw [List.length_take]
    exact min_eq_left (le_trans hl (List.takeWhile_prefix _).length_le)
  refine ⟨l, rest, h2, hlen, ?_, hm, hw, hp⟩
  have htw : cs.takeWhile Char.isAlpha =
      cs.take (cs.takeWhile Char.isAlpha).length :=
    List.prefix_iff_eq_take.mp (List.takeWhile_prefix _)
  have htake : cs.take l = (cs.takeWhile Char.isAlpha).take l := by
    rw [htw, List.take_take, min_eq_left hl]
  intro c hc
  rw [htake] at hc
  exact List.mem_takeWhile_imp (List.mem_of_mem_take hc)

/-- A successful search decomposes the input around an anchored match. -/
theorem searchCode_shape (cs m : List Char) (h : searchCode cs = some m) :
    ∃ pre suf, cs = pre ++ suf ∧ matchCodeAt suf = some m := by
  induction cs with
  | nil => exact absurd h (by simp [searchCode])
  | cons c rest ih =>
      simp only [searchCode] at h
      split at h
      · next m' hm' =>
          rw [Option.some.injEq] at h
          subst h
          exact ⟨[], c :: rest, rfl, hm'⟩
      · obtain ⟨pre, suf, heq, hma⟩ := ih h
        exact ⟨c :: pre, suf, by rw [heq]; rfl, hma⟩

/-- Words produced by `wordsAux` contain no whitespace characters (provided
the accumulator contains none). -/
theorem wordsAux_no_ws (cs : List Char) :
    ∀ acc, (∀ c ∈ acc, c.isWhitespace = false) →
      ∀ w ∈ wordsAux cs acc, ∀ c ∈ w, c.isWhitespace = false := by
  induction cs with
  | nil =>
      intro acc hacc w hw c hc
      unfold wordsAux at hw
      split at hw
      · exact absurd hw (by simp)
      · rw [List.mem_singleton] at hw
        subst hw
        exact hacc c (List.mem_reverse.mp hc)
  | cons a t ih =>
      intro acc hacc w hw c hc
      unfold wordsAux at hw
      split at hw
      · split at hw
        · exact ih [] (by simp) w hw c hc
        · rcases List.mem_cons.mp hw with hwa | hwr
          · subst hwa
            exact hacc c (List.mem_reverse.mp hc)
          · exact ih [] (by simp) w hwr c hc
      · next ha =>
          refine ih (a :: acc) ?_ w hw c hc
          intro x hx
          rcases List.mem_cons.mp hx with rfl | hx'
          · exact Bool.not_eq_true _ ▸ ha
          · exact hacc x hx'

/-- Every character of a space-join is a space or comes from some part. -/
theorem joinSpace_mem (parts : List (List Char)) (c : Char)
    (hc : c ∈ joinSpace parts) : c = ' ' ∨ ∃ w ∈ parts, c ∈ w := by
  induction parts with
  | nil => exact absurd hc (by simp [joinSpace])
  | cons w rest ih =>
      cases rest with
      | nil =>
          right
          exact ⟨w, by simp, hc⟩
      | cons w2 r2 =>
          rw [show joinSpace (w :: w2 :: r2) = w ++ ' ' :: joinSpace (w2 :: r2)
            from rfl] at hc
          rcases List.mem_append.mp hc with h1 | h2
          · exact Or.inr ⟨w, by simp, h1⟩
          · rcases List.mem_cons.mp h2 with rfl | h3
            · exact Or.inl rfl
            · rcases ih h3 with hsp | ⟨w', hw', hcw'⟩
              · exact Or.inl hsp
              · exact Or.inr ⟨w', List.mem_cons_of_mem _ hw', hcw'⟩

/-- The only whitespace character a normalized string can contain is the
single space. -/
theorem clean_ws_is_space (s : String) (c : Char)
    (hc : c ∈ joinSpace (pyWords s)) (hw : c.isWhitespace = true) :
    c = ' ' := by
  rcases joinSpace_mem _ _ hc with h | ⟨w, hwmem, hcw⟩
  · exact h
  · have hno := wordsAux_no_ws s.toList [] (by simp) w hwmem c hcw
    rw [hno] at hw
    exact absurd hw (by simp)

/-- Inserting the space before the first digit of a letters-then-digits
string splits it exactly at the boundary. -/
theorem insertSpace_concat (A B : List Char)
    (hA : ∀ c ∈ A, c.isDigit = false)
    (hB : ∃ d B', B = d :: B' ∧ d.isDigit = true) :
    insertSpaceBeforeDigit (A ++ B) = A ++ ' ' :: B := by
  induction A with
  | nil =>
      obtain ⟨d, B', rfl, hd⟩ := hB
      simp [insertSpaceBeforeDigit, hd]
  | cons a A' ih =>
      have ha := hA a (by simp)
      show insertSpaceBeforeDigit (a :: (A' ++ B)) = a :: (A' ++ ' ' :: B)
      unfold insertSpaceBeforeDigit
      rw [if_neg (by rw [ha]; simp)]
      rw [ih (fun c hc => hA c (List.mem_cons_of_mem _ hc))]

/-- C10: for every code the extractor returns there is a matched substring
`m` of the whitespace-normalized input (the leftmost regex match, anchored
here by the `searchCode` equation and exhibited as an infix of the
normalized text) that splits as a letter block of at least two letters, an
optional separator (nothing, a space, a hyphen, or a space followed by a
hyphen), a non-empty digit block, and an optional trailing letter.  When the
match contains a separator the code is returned exactly as matched
(`code.toList = m`, so the letter prefix keeps its case verbatim); when it
contains none, the returned code is the match with exactly one space
inserted immediately before the first digit and no other change
(the returned list is `pre`, one space, `ds`, `t` — the same `pre`, `ds`,
`t` taken from the match).  In both cases the returned code has a space or
hyphen between its alphabetic prefix and its first digit. -/
theorem code_separator_invariant (text code rem : String)
    (h : extract_course_code text = (some code, rem)) :
    ∃ m pre sep ds t,
      searchCode (joinSpace (pyWords text)) = some m ∧
      (∃ p q, joinSpace (pyWords text) = p ++ (m ++ q)) ∧
      m = pre ++ sep ++ ds ++ t ∧
      2 ≤ pre.length ∧ (∀ c ∈ pre, c.isAlpha = true) ∧
      (sep = [] ∨ sep = [' '] ∨ sep = ['-'] ∨ sep = [' ', '-']) ∧
      ds ≠ [] ∧ (∀ c ∈ ds, c.isDigit = true) ∧
      (t = [] ∨ ∃ c, t = [c] ∧ c.isAlpha = true) ∧
      (sep ≠ [] → code.toList = m) ∧
      (sep = [] → code.toList = pre ++ ' ' :: (ds ++ t)) := by
  simp only [extract_course_code] at h
  split at h
  · exact absurd h (by simp)
  · split at h
    · exact absurd h (by simp)
    · split at h
      · exact absurd h (by simp)
      · next m hm =>
          split at h
          · exact absurd h (by simp)
          · obtain ⟨pre0, suf, hcs, hma⟩ := searchCode_shape _ _ hm
            obtain ⟨l, rest, h2l, hlen, halpha, hmtake, hwd, hpm⟩ :=
              matchCodeAt_shape _ _ hma
            obtain ⟨sep, rest2, hrest, hdig, hsep, _⟩ :=
              matchWsDash_shape _ _ hwd
            obtain ⟨ds, t, hds, hdsne, hdsd, ht, _⟩ :=
              matchDigitsPart_shape _ _ hdig
            have hmdec : m = suf.take l ++ (sep ++ (ds ++ t)) := by
              rw [hmtake, hrest, hds]
            obtain ⟨q0, hq0⟩ := hpm
            have hinf : ∃ p q, joinSpace (pyWords text) = p ++ (m ++ q) :=
              ⟨pre0, q0, by rw [hcs, ← hq0]⟩
            have hmem_norm : ∀ c ∈ m, c ∈ joinSpace (pyWords text) := by
              intro c hc
              rw [hcs, ← hq0]
              exact List.mem_append_right _ (List.mem_append_left _ hc)
            have htalpha : ∀ c ∈ t, c.isAlpha = true := by
              intro c hc
              rcases ht with rfl | ⟨c', hteq, hca⟩
              · exact absurd hc (by simp)
              · rw [hteq, List.mem_singleton] at hc
                subst hc
                exact hca
            rcases hsep with rfl | ⟨w, hwws, hw1⟩ | rfl
            · have hnodash : charMem '-' m = false := by
                apply charMem_eq_false
                intro x hx
                rw [hmdec] at hx
                simp only [List.nil_append] at hx
                rcases List.mem_append.mp hx with hx1 | hx2
                · exact alpha_ne_dash x (halpha x hx1)
                · rcases List.mem_append.mp hx2 with hx3 | hx4
                  · exact digit_ne_dash x (hdsd x hx3)
                  · exact alpha_ne_dash x (htalpha x hx4)
              have hnospace : charMem ' ' m = false := by
                apply charMem_eq_false
                intro x hx
                rw [hmdec] at hx
                simp only [List.nil_append] at hx
                rcases List.mem_append.mp hx with hx1 | hx2
                · exact alpha_ne_space x (halpha x hx1)
                · rcases List.mem_append.mp hx2 with hx3 | hx4
                  · exact digit_ne_space x (hdsd x hx3)
                  · exact alpha_ne_space x (htalpha x hx4)
              have hcond : ¬ charMem '-' m = true ∧ ¬ charMem ' ' m = true :=
                ⟨by rw [hnodash]; simp, by rw [hnospace]; simp⟩
              rw [if_pos hcond, Prod.mk.injEq] at h
              obtain ⟨h1, _⟩ := h
              rw [Option.some.injEq] at h1
              have hct : code.toList = insertSpaceBeforeDigit m := by
                rw [← h1]
                rfl
              obtain ⟨d, ds', rfl⟩ : ∃ d ds', ds = d :: ds' := by
                cases ds with
                | nil => exact absurd rfl hdsne
                | cons d ds' => exact ⟨d, ds', rfl⟩
              have hins : insertSpaceBeforeDigit
                    (suf.take l ++ (d :: (ds' ++ t))) =
                  suf.take l ++ ' ' :: (d :: (ds' ++ t)) := by
                apply insertSpace_concat
                · exact fun c hc => alpha_not_digit c (halpha c hc)
                · exact ⟨d, ds' ++ t, rfl, hdsd d (by simp)⟩
              refine ⟨m, suf.take l, [], d :: ds', t, hm, hinf, ?_, ?_,
                halpha, Or.inl rfl, by simp, hdsd, ht,
                fun hne => absurd rfl hne, fun _ => ?_⟩
              · rw [hmdec]
                simp
              · rw [hlen]
                exact h2l
              · rw [hct, hmdec]
                simp only [List.nil_append, List.cons_append,
                  List.append_assoc]
                rw [hins]
            · have hwmem : w ∈ m := by
                rw [hmdec]
                rcases hw1 with rfl | rfl <;> simp
              have hwsp : w = ' ' :=
                clean_ws_is_space text w (hmem_norm w hwmem) hwws
              subst hwsp
              rcases hw1 with rfl | rfl
              · have hncond :
                    ¬(¬ charMem '-' m = true ∧ ¬ charMem ' ' m = true) :=
                  fun hc => hc.2 (charMem_eq_true _ _ hwmem)
                rw [if_neg hncond, Prod.mk.injEq] at h
                obtain ⟨h1, _⟩ := h
                rw [Option.some.injEq] at h1
                have hct : code.toList = m := by
                  rw [← h1]
                  rfl
                refine ⟨m, suf.take l, [' '], ds, t, hm, hinf, ?_, ?_,
                  halpha, Or.inr (Or.inl rfl), hdsne, hdsd, ht,
                  fun _ => hct, fun heq => absurd heq (by simp)⟩
                · rw [hmdec]
                  simp
                · rw [hlen]
                  exact h2l
              · have hdmem : '-' ∈ m := by
                  rw [hmdec]
                  simp
                have hncond :
                    ¬(¬ charMem '-' m = true ∧ ¬ charMem ' ' m = true) :=
                  fun hc => hc.1 (charMem_eq_true _ _ hdmem)
                rw [if_neg hncond, Prod.mk.injEq] at h
                obtain ⟨h1, _⟩ := h
                rw [Option.some.injEq] at h1
                have hct : code.toList = m := by
                  rw [← h1]
                  rfl
                refine ⟨m, suf.take l, [' ', '-'], ds, t, hm, hinf, ?_, ?_,
                  halpha, Or.inr (Or.inr (Or.inr rfl)), hdsne, hdsd, ht,
                  fun _ => hct, fun heq => absurd heq (by simp)⟩
                · rw [hmdec]
                  simp
                · rw [hlen]
                  exact h2l
            · have hdmem : '-' ∈ m := by
                rw [hmdec]
                simp
              have hncond :
                  ¬(¬ charMem '-' m = true ∧ ¬ charMem ' ' m = true) :=
                fun hc => hc.1 (charMem_eq_true _ _ hdmem)
              rw [if_neg hncond, Prod.mk.injEq] at h
              obtain ⟨h1, _⟩ := h
              rw [Option.some.injEq] at h1
              have hct : code.toList = m := by
                rw [← h1]
                rfl
              refine ⟨m, suf.take l, ['-'], ds, t, hm, hinf, ?_, ?_,
                halpha, Or.inr (Or.inr (Or.inl rfl)), hdsne, hdsd, ht,
                fun _ => hct, fun heq => absurd heq (by simp)⟩
              · rw [hmdec]
                simp
              · rw [hlen]
                exact h2l

/-- Witness for C10 at the concrete input "MATH1001" (the matched substring
is "MATH1001" itself, the separator is empty, and the returned code is the
match with one space inserted). -/
theorem code_separator_invariant_witness :
    ∃ m pre sep ds t,
      searchCode (joinSpace (pyWords "MATH1001")) = some m ∧
      (∃ p q, joinSpace (pyWords "MATH1001") = p ++ (m ++ q)) ∧
      m = pre ++ sep ++ ds ++ t ∧
      2 ≤ pre.length ∧ (∀ c ∈ pre, c.isAlpha = true) ∧
      (sep = [] ∨ sep = [' '] ∨ sep = ['-'] ∨ sep = [' ', '-']) ∧
      ds ≠ [] ∧ (∀ c ∈ ds, c.isDigit = true) ∧
      (t = [] ∨ ∃ c, t = [c] ∧ c.isAlpha = true) ∧
      (sep ≠ [] → (String.toList "MATH 1001") = m) ∧
      (sep = [] → (String.toList "MATH 1001") = pre ++ ' ' :: (ds ++ t)) :=
  code_separator_invariant "MATH1001" "MATH 1001" "" (by decide)

example : parse_units "1-3-2" = 2 := by decide

example : parse_units "3.0" = 3 := by decide

example : parse_units "NC" = 0 := by decide

example : parse_units "" = 0 := by decide

example : parse_units "4.5" = mkRat 9 2 := by decide

example : pyFloat? "2e1" = some 20 := by decide

example : pyFloat? "1.2.3" = none := by decide

example : clean_text "  a   b " = "a b" := by decide
